import Mathlib

/-!
# Static property tables of KJS (`JavaScriptCore/kjs/lookup.h`)

A shallow embedding of the template helpers of `lookup.h`:
`staticFunctionGetter`, `staticValueGetter`, `getStaticPropertySlot`,
`getStaticFunctionSlot`, `getStaticValueSlot`, `lookupPut`, `cacheGlobalObject`
and the prototype helpers `KJS_IMPLEMENT_PROTOTYPE`,
`KJS_IMPLEMENT_PROTOTYPE_WITH_PARENT`, `KJS_IMPLEMENT_PROTOFUNC`.

Conventions of the embedding.

* A non-null `JSValue*` is a `JSValue`; a pointer that the source tests for
  null (`getDirect`, `findEntry`) is an `Option`.  Identity of values is
  equality: an object value is its address.
* `ExecState*` and the objects reachable from it are the explicit `World`:
  the heap (the dynamic-property storage `_prop` of every object, the
  allocator, the global object, the stored values of the owners) and the
  list of calls the helpers made on their collaborators so far.
* The template parameters `FuncImp`, `ThisImp`, `ParentImp`, `ClassCtor` are
  ordinary parameters.  An owner (`ThisImp`) works on its own stored values,
  a parent (`ParentImp`) on the whole heap; neither sees the call list.
* `assert` is active: a function containing one returns `none` when it fails.
* The `KJS_VERBOSE` diagnostic of `lookupPut` is not compiled in.
-/

namespace KJS

/-! ## Values, identifiers, attributes -/

/-- Address of a heap-allocated `JSObject`. -/
abbrev JSObject := Nat

/-- Property name (`Identifier`). -/
abbrev Identifier := String

/-- Non-null value of type `JSValue*`: an object (identified by its address),
a number made by `jsNumber`, or any other non-object value. -/
inductive JSValue where
  | object (o : JSObject)
  | number (n : Int)
  | other (id : Nat)
  deriving DecidableEq, Repr

/-- Method `JSValue::isObject`. -/
def JSValue.isObject : JSValue → Bool
  | .object _ => true
  | _ => false

/-- Cast `static_cast<JSObject *>(obj)` of a value; in the source it is guarded
by `assert(obj->isObject())`, so a non-object has no image. -/
def JSValue.toObject : JSValue → Option JSObject
  | .object o => some o
  | _ => none

/-- Modelled from the spec: the attribute bit flags of `object.h` (`enum
Attribute`), a header whose text is missing; §3 names them as bit flags
(read-only, hidden, internal, is-a-function).  Only the fact that a flag is a
bit tested with `&` is used by the theorems. -/
def ReadOnly : Int := 2

/-- Modelled from the spec: flag `DontEnum` of `object.h`. -/
def DontEnum : Int := 4

/-- Modelled from the spec: flag `DontDelete` of `object.h`. -/
def DontDelete : Int := 8

/-- Modelled from the spec: flag `Internal` of `object.h`. -/
def Internal : Int := 16

/-- Modelled from the spec: flag `Function` of `object.h`. -/
def Function : Int := 32

/-- Test `attr & flag` of the source, read as a C condition (non-zero). -/
def hasFlag (attr flag : Int) : Bool :=
  decide (Int.land attr flag ≠ 0)

/-! ## Hash tables and lookup -/

/-- An entry in a hash table (`struct HashEntry`).  The key `s` is a C string
that is null in an empty bucket; `next` points into the same array and is
kept as an index. -/
structure HashEntry where
  s : Option String
  value : Int
  attr : Int
  params : Int
  next : Option Nat
  deriving DecidableEq, Repr

/-- A hash table (`struct HashTable`). -/
structure HashTable where
  type : Int
  size : Int
  entries : List HashEntry
  hashSize : Int
  deriving DecidableEq, Repr

/-- Walk of a bucket chain: compare the key of the entry at index `i`, then
follow `next`.  The fuel bounds the walk by the size of the array. -/
def Lookup.findEntryFrom (table : HashTable) (name : Identifier) : Nat → Nat → Option HashEntry
  | 0, _ => none
  | fuel + 1, i =>
    match table.entries[i]? with
    | none => none
    | some e =>
      if e.s = some name then some e
      else
        match e.next with
        | none => none
        | some j => Lookup.findEntryFrom table name fuel j

/-- Modelled from the spec: `Lookup::findEntry` is declared in `lookup.h` but
defined in `lookup.cpp`, whose text is missing.  §4.2: hash the name,
take bucket `hash % hashSize`, compare the name with the key of each entry of
the chain by exact equality until a match or the end of the chain.  The hash
function is a parameter. -/
def Lookup.findEntry (hash : Identifier → Nat) (table : HashTable) (name : Identifier) :
    Option HashEntry :=
  if table.hashSize ≤ 0 then none
  else Lookup.findEntryFrom table name table.entries.length (hash name % table.hashSize.toNat)

/-! ## Dynamic-property storage -/

/-- Lookup in an association list. -/
def assocGet {κ β : Type} [DecidableEq κ] : List (κ × β) → κ → Option β
  | [], _ => none
  | (k, b) :: m, key => if k = key then some b else assocGet m key

/-- Insert or replace in an association list (the position of a replaced key
is kept, a new key goes to the end). -/
def assocPut {κ β : Type} [DecidableEq κ] : List (κ × β) → κ → β → List (κ × β)
  | [], key, b => [(key, b)]
  | (k, b0) :: m, key, b => if k = key then (key, b) :: m else (k, b0) :: assocPut m key b

/-- Dynamic-property storage of one object (`PropertyMap`, the member `_prop`
of `JSObject`): name ↦ (value, attributes). -/
abbrev PropertyMap := List (Identifier × (JSValue × Int))

/-- The heap reachable from an `ExecState`.  `objects` gives every allocated
object its dynamic-property storage, `fresh` is the address the next `new`
returns, `globalObject` is `exec->lexicalInterpreter()->globalObject()`, and
`owner` holds the stored values that the owners compute from. -/
structure Heap (σ : Type) where
  objects : List (JSObject × PropertyMap)
  fresh : JSObject
  globalObject : JSObject
  owner : σ
  deriving DecidableEq

/-- The member `_prop` of an object (empty when nothing was ever stored). -/
def Heap.propsOf {σ : Type} (h : Heap σ) (o : JSObject) : PropertyMap :=
  (assocGet h.objects o).getD []

/-- Modelled from the spec: `JSObject::getDirect` (`object.h`, whose text is
missing) reads a direct dynamic property by name (§6); null when absent. -/
def JSObject.getDirect {σ : Type} (h : Heap σ) (o : JSObject) (name : Identifier) :
    Option JSValue :=
  (assocGet (h.propsOf o) name).map Prod.fst

/-- Attributes under which a direct dynamic property is stored. -/
def JSObject.getAttributes {σ : Type} (h : Heap σ) (o : JSObject) (name : Identifier) :
    Option Int :=
  (assocGet (h.propsOf o) name).map Prod.snd

/-- Modelled from the spec: `JSObject::putDirect` (`object.h`, whose text is
missing) writes a direct dynamic property by name with the given attributes
(§6), replacing what was stored under the name. -/
def JSObject.putDirect {σ : Type} (h : Heap σ) (o : JSObject) (name : Identifier)
    (value : JSValue) (attr : Int) : Heap σ :=
  { h with objects := assocPut h.objects o (assocPut (h.propsOf o) name (value, attr)) }

/-- Modelled from the spec: `JSObject::put` (`object.cpp`, whose text is
missing).  §4.4 and §4.5 describe the write of the plain object as storing the
value into the dynamic-property storage under the name with the
caller-supplied attributes. -/
def JSObject.put {σ : Type} (h : Heap σ) (o : JSObject) (name : Identifier)
    (value : JSValue) (attr : Int) : Heap σ :=
  JSObject.putDirect h o name value attr

/-! ## Collaborators and the call list -/

/-- A call made by a helper of `lookup.h` on one of its collaborators. -/
inductive Call where
  | newFuncImp (value params : Int)
  | newClassCtor
  | getValueProperty (thisObj : JSObject) (token : Int)
  | putValueProperty (thisObj : JSObject) (token : Int) (value : JSValue) (attr : Int)
  | parentGetOwnPropertySlot (thisObj : JSObject) (name : Identifier)
  | parentPut (thisObj : JSObject) (name : Identifier) (value : JSValue) (attr : Int)
  | JSObject_put (thisObj : JSObject) (name : Identifier) (value : JSValue) (attr : Int)
  | globalObjectPut (name : Identifier) (value : JSValue) (attr : Int)
  deriving DecidableEq, Repr

/-- What `exec` gives access to, together with the calls made so far. -/
structure World (σ : Type) where
  heap : Heap σ
  calls : List Call
  deriving DecidableEq

/-- Append a call to the call list. -/
def World.record {σ : Type} (w : World σ) (c : Call) : World σ :=
  { w with calls := w.calls ++ [c] }

/-- Template parameter `FuncImp`: the class of the callable wrappers.  `ctor i
len` is the dynamic-property storage the constructor `FuncImp(exec, i, len)`
leaves on the new wrapper. -/
structure FuncImp where
  ctor : Int → Int → PropertyMap

/-- Template parameter `ThisImp`: the owner, with its two methods
`getValueProperty(exec, token)` and `putValueProperty(exec, token, value,
attr)` acting on the owner's stored values. -/
structure ThisImp (σ : Type) where
  getValueProperty : JSObject → Int → σ → JSValue × σ
  putValueProperty : JSObject → Int → JSValue → Int → σ → σ

/-- Function pointer stored in a slot by `setStaticEntry`: an instance of one
of the two getter templates. -/
inductive GetValueFunc (σ : Type) where
  | staticFunctionGetter (F : FuncImp)
  | staticValueGetter (T : ThisImp σ)

/-- Modelled from the spec: the deferred binding of a property
(`PropertySlot`, `property_slot.h`, whose text is missing; §4.3): unset, set by `setStaticEntry(slotBase, entry, getValue)`,
or set by `setValueSlot(slotBase, location)` where the location is the place
of a name in the storage of `slotBase`. -/
inductive PropertySlot (σ : Type) where
  | unset
  | staticEntrySlot (slotBase : JSObject) (entry : HashEntry) (getValue : GetValueFunc σ)
  | valueSlot (slotBase : JSObject) (name : Identifier)

/-- Method `PropertySlot::setStaticEntry`. -/
def PropertySlot.setStaticEntry {σ : Type} (_slot : PropertySlot σ) (slotBase : JSObject)
    (entry : HashEntry) (getValue : GetValueFunc σ) : PropertySlot σ :=
  .staticEntrySlot slotBase entry getValue

/-- Method `PropertySlot::setValueSlot`. -/
def PropertySlot.setValueSlot {σ : Type} (_slot : PropertySlot σ) (slotBase : JSObject)
    (name : Identifier) : PropertySlot σ :=
  .valueSlot slotBase name

/-- Method `PropertySlot::slotBase` (null on an unset slot). -/
def PropertySlot.slotBase {σ : Type} : PropertySlot σ → Option JSObject
  | .unset => none
  | .staticEntrySlot b _ _ => some b
  | .valueSlot b _ => some b

/-- Method `PropertySlot::staticEntry` (meaningful only after `setStaticEntry`). -/
def PropertySlot.staticEntry {σ : Type} : PropertySlot σ → Option HashEntry
  | .staticEntrySlot _ e _ => some e
  | _ => none

/-- Template parameter `ParentImp`: the parent class, with its
`getOwnPropertySlot(exec, propertyName, slot)` and `put(exec, propertyName,
value, attr)` called on `thisObj`. -/
structure ParentImp (σ : Type) where
  getOwnPropertySlot : JSObject → Identifier → PropertySlot σ → Heap σ →
    Bool × PropertySlot σ × Heap σ
  put : JSObject → Identifier → JSValue → Int → Heap σ → Heap σ

/-- Expression `new FuncImp(exec, value, params)`: a fresh object whose storage
is what the constructor leaves on it. -/
def World.newFuncImp {σ : Type} (w : World σ) (F : FuncImp) (value params : Int) :
    JSValue × World σ :=
  (JSValue.object w.heap.fresh,
   { heap := { w.heap with
                 objects := assocPut w.heap.objects w.heap.fresh (F.ctor value params)
                 fresh := w.heap.fresh + 1 }
     calls := w.calls ++ [Call.newFuncImp value params] })

/-- Template parameter `ClassCtor`: the class of the cached object.  `ctor` is
the dynamic-property storage the constructor `ClassCtor(exec)` leaves on the
new object. -/
structure ClassCtor where
  ctor : PropertyMap

/-- Expression `new ClassCtor(exec)`: a fresh object whose storage is what the
constructor leaves on it. -/
def World.newClassCtor {σ : Type} (w : World σ) (C : ClassCtor) : JSObject × World σ :=
  (w.heap.fresh,
   { heap := { w.heap with
                 objects := assocPut w.heap.objects w.heap.fresh C.ctor
                 fresh := w.heap.fresh + 1 }
     calls := w.calls ++ [Call.newClassCtor] })

/-- Modelled from the spec: `JSObject::getOwnPropertySlot` (`object.h`, whose
text is missing), the end of every delegation chain.  The plain object has
only its direct dynamic properties (§6): a stored name gives a value slot on
its location, any other name does not exist (§4.3, outcome 1). -/
def JSObject.getOwnPropertySlot {σ : Type} (thisObj : JSObject) (propertyName : Identifier)
    (slot : PropertySlot σ) (h : Heap σ) : Bool × PropertySlot σ × Heap σ :=
  match JSObject.getDirect h thisObj propertyName with
  | some _ => (true, slot.setValueSlot thisObj propertyName, h)
  | none => (false, slot, h)

/-- The class `JSObject` used as `ParentImp`. -/
def JSObjectImp (σ : Type) : ParentImp σ where
  getOwnPropertySlot := JSObject.getOwnPropertySlot
  put := fun thisObj propertyName value attr h => JSObject.put h thisObj propertyName value attr

/-! ## The helpers of `lookup.h` -/

/-- Template `staticFunctionGetter<FuncImp>` (lookup.h:123-136).  The result
is `none` only when the slot lacks the member the source reads. -/
def staticFunctionGetter {σ : Type} (F : FuncImp) (_originalObject : JSObject)
    (propertyName : Identifier) (slot : PropertySlot σ) (w : World σ) :
    Option (JSValue × World σ) :=
  match slot.slotBase with
  | none => none
  | some thisObj =>
    -- Look for cached value in dynamic map of properties (in JSObject)
    match JSObject.getDirect w.heap thisObj propertyName with
    | some cachedVal => some (cachedVal, w)
    | none =>
      match slot.staticEntry with
      | none => none
      | some entry =>
        let r := w.newFuncImp F entry.value entry.params
        some (r.1,
          { r.2 with
              heap := JSObject.putDirect r.2.heap thisObj propertyName r.1 entry.attr })

/-- Template `staticValueGetter<ThisImp>` (lookup.h:142-148). -/
def staticValueGetter {σ : Type} (T : ThisImp σ) (_originalObject : JSObject)
    (_propertyName : Identifier) (slot : PropertySlot σ) (w : World σ) :
    Option (JSValue × World σ) :=
  match slot.slotBase, slot.staticEntry with
  | some thisObj, some entry =>
    let r := T.getValueProperty thisObj entry.value w.heap.owner
    some (r.1, { heap := { w.heap with owner := r.2 }
                 calls := w.calls ++ [Call.getValueProperty thisObj entry.value] })
  | _, _ => none

/-- Method `PropertySlot::getValue(exec, originalObject, propertyName)`:
realize the slot by calling the stored getter on it. -/
def PropertySlot.getValue {σ : Type} (slot : PropertySlot σ) (originalObject : JSObject)
    (propertyName : Identifier) (w : World σ) : Option (JSValue × World σ) :=
  match slot with
  | .unset => none
  | .staticEntrySlot _ _ (.staticFunctionGetter F) =>
    staticFunctionGetter F originalObject propertyName slot w
  | .staticEntrySlot _ _ (.staticValueGetter T) =>
    staticValueGetter T originalObject propertyName slot w
  | .valueSlot b n => (JSObject.getDirect w.heap b n).map (fun v => (v, w))

/-- The call `thisObj->ParentImp::getOwnPropertySlot(exec, propertyName, slot)`. -/
def callParentGetOwnPropertySlot {σ : Type} (P : ParentImp σ) (thisObj : JSObject)
    (propertyName : Identifier) (slot : PropertySlot σ) (w : World σ) :
    Bool × PropertySlot σ × World σ :=
  let r := P.getOwnPropertySlot thisObj propertyName slot w.heap
  (r.1, r.2.1, { heap := r.2.2
                 calls := w.calls ++ [Call.parentGetOwnPropertySlot thisObj propertyName] })

/-- Template `getStaticPropertySlot<FuncImp, ThisImp, ParentImp>`
(lookup.h:170-185). -/
def getStaticPropertySlot {σ : Type} (hash : Identifier → Nat) (F : FuncImp) (T : ThisImp σ)
    (P : ParentImp σ) (table : HashTable) (thisObj : JSObject) (propertyName : Identifier)
    (slot : PropertySlot σ) (w : World σ) : Bool × PropertySlot σ × World σ :=
  match Lookup.findEntry hash table propertyName with
  | none => -- not found, forward to parent
    callParentGetOwnPropertySlot P thisObj propertyName slot w
  | some entry =>
    if hasFlag entry.attr Function then
      (true, slot.setStaticEntry thisObj entry (.staticFunctionGetter F), w)
    else
      (true, slot.setStaticEntry thisObj entry (.staticValueGetter T), w)

/-- Template `getStaticFunctionSlot<FuncImp, ParentImp>` (lookup.h:192-205);
`none` is the failure of `assert(entry->attr & Function)`. -/
def getStaticFunctionSlot {σ : Type} (hash : Identifier → Nat) (F : FuncImp)
    (P : ParentImp σ) (table : HashTable) (thisObj : JSObject) (propertyName : Identifier)
    (slot : PropertySlot σ) (w : World σ) : Option (Bool × PropertySlot σ × World σ) :=
  match Lookup.findEntry hash table propertyName with
  | none => -- not found, forward to parent
    some (callParentGetOwnPropertySlot P thisObj propertyName slot w)
  | some entry =>
    if hasFlag entry.attr Function then
      some (true, slot.setStaticEntry thisObj entry (.staticFunctionGetter F), w)
    else none

/-- Template `getStaticValueSlot<ThisImp, ParentImp>` (lookup.h:211-224);
`none` is the failure of `assert(!(entry->attr & Function))`. -/
def getStaticValueSlot {σ : Type} (hash : Identifier → Nat) (T : ThisImp σ)
    (P : ParentImp σ) (table : HashTable) (thisObj : JSObject) (propertyName : Identifier)
    (slot : PropertySlot σ) (w : World σ) : Option (Bool × PropertySlot σ × World σ) :=
  match Lookup.findEntry hash table propertyName with
  | none => -- not found, forward to parent
    some (callParentGetOwnPropertySlot P thisObj propertyName slot w)
  | some entry =>
    if !hasFlag entry.attr Function then
      some (true, slot.setStaticEntry thisObj entry (.staticValueGetter T), w)
    else none

/-- Template `lookupPut<ThisImp, ParentImp>` (lookup.h:230-249). -/
def lookupPut {σ : Type} (hash : Identifier → Nat) (T : ThisImp σ) (P : ParentImp σ)
    (propertyName : Identifier) (value : JSValue) (attr : Int) (table : HashTable)
    (thisObj : JSObject) (w : World σ) : World σ :=
  match Lookup.findEntry hash table propertyName with
  | none => -- not found: forward to parent
    { heap := P.put thisObj propertyName value attr w.heap
      calls := w.calls ++ [Call.parentPut thisObj propertyName value attr] }
  | some entry =>
    if hasFlag entry.attr Function then -- function: put as override property
      { heap := JSObject.put w.heap thisObj propertyName value attr
        calls := w.calls ++ [Call.JSObject_put thisObj propertyName value attr] }
    else if hasFlag entry.attr ReadOnly then -- readonly! Can't put!
      w -- do nothing
    else
      { heap := { w.heap with
                    owner := T.putValueProperty thisObj entry.value value attr w.heap.owner }
        calls := w.calls ++ [Call.putValueProperty thisObj entry.value value attr] }

/-- Template `cacheGlobalObject<ClassCtor>` (lookup.h:258-270); `none` is the
failure of `assert(obj->isObject())`.  The call `globalObject->put` is the
write of a direct property of the global object (§4.5). -/
def cacheGlobalObject {σ : Type} (C : ClassCtor) (propertyName : Identifier) (w : World σ) :
    Option (JSObject × World σ) :=
  let globalObject := w.heap.globalObject
  match JSObject.getDirect w.heap globalObject propertyName with
  | some obj =>
    if obj.isObject then obj.toObject.map (fun o => (o, w)) else none
  | none =>
    let r := w.newClassCtor C
    some (r.1,
      { heap := JSObject.put r.2.heap globalObject propertyName (JSValue.object r.1) Internal
        calls := r.2.calls ++ [Call.globalObjectPut propertyName (JSValue.object r.1) Internal] })

/-! ## Classes built from the helpers -/

/-- A class that implements `getOwnPropertySlot` by `getStaticPropertySlot` and
`put` by `lookupPut` over its own table, as the porting notes at the end of
`lookup.h` prescribe; seen from a subclass it is a `ParentImp`. -/
def tableClass {σ : Type} (hash : Identifier → Nat) (F : FuncImp) (T : ThisImp σ)
    (P : ParentImp σ) (table : HashTable) : ParentImp σ where
  getOwnPropertySlot := fun thisObj propertyName slot h =>
    let r := getStaticPropertySlot hash F T P table thisObj propertyName slot ⟨h, []⟩
    (r.1, r.2.1, r.2.2.heap)
  put := fun thisObj propertyName value attr h =>
    (lookupPut hash T P propertyName value attr table thisObj ⟨h, []⟩).heap

/-- One level of a class hierarchy: the template arguments and the table. -/
structure TableLevel (σ : Type) where
  funcImp : FuncImp
  thisImp : ThisImp σ
  table : HashTable

/-- The superclasses of a class, nearest first, above the class `base` that
ends the chain. -/
def classChain {σ : Type} (hash : Identifier → Nat) (base : ParentImp σ) :
    List (TableLevel σ) → ParentImp σ
  | [] => base
  | l :: ls => tableClass hash l.funcImp l.thisImp (classChain hash base ls) l.table

/-- Class `ClassFunc` declared by `KJS_IMPLEMENT_PROTOFUNC` (lookup.h:326-337):
its constructor stores the length property on the new function object. -/
def KJS_IMPLEMENT_PROTOFUNC : FuncImp where
  ctor := fun _i len =>
    [("length", (JSValue.number len, Int.lor (Int.lor DontDelete ReadOnly) DontEnum))]

/-- A prototype class declared by `KJS_DEFINE_PROTOTYPE` and implemented by
`KJS_IMPLEMENT_PROTOTYPE` or `KJS_IMPLEMENT_PROTOTYPE_WITH_PARENT`. -/
inductive ClassProto where
  | KJS_IMPLEMENT_PROTOTYPE (ClassName : String) (table : HashTable) (ClassFunc : FuncImp)
  | KJS_IMPLEMENT_PROTOTYPE_WITH_PARENT (ClassName : String) (table : HashTable)
      (ClassFunc : FuncImp) (ParentProto : ClassProto)

/-- Name of the class. -/
def ClassProto.ClassName : ClassProto → String
  | .KJS_IMPLEMENT_PROTOTYPE n _ _ => n
  | .KJS_IMPLEMENT_PROTOTYPE_WITH_PARENT n _ _ _ => n

/-- Static method `ClassProto::self(exec)` (lookup.h:304-307, 315-318).  The
constructor of a prototype class has an empty body (lookup.h:297-298). -/
def ClassProto.self {σ : Type} (c : ClassProto) (w : World σ) : Option (JSObject × World σ) :=
  cacheGlobalObject ⟨[]⟩ ("[[" ++ c.ClassName ++ ".prototype]]") w

/-- Method `ClassProto::getOwnPropertySlot` (lookup.h:308-311, 319-324),
called on the object `this`. -/
def ClassProto.getOwnPropertySlot {σ : Type} (hash : Identifier → Nat) :
    ClassProto → JSObject → Identifier → PropertySlot σ → World σ →
    Option (Bool × PropertySlot σ × World σ)
  | .KJS_IMPLEMENT_PROTOTYPE _ table ClassFunc, this, propertyName, slot, w =>
    getStaticFunctionSlot hash ClassFunc (JSObjectImp σ) table this propertyName slot w
  | .KJS_IMPLEMENT_PROTOTYPE_WITH_PARENT _ table ClassFunc ParentProto, this, propertyName,
      slot, w =>
    match getStaticFunctionSlot hash ClassFunc (JSObjectImp σ) table this propertyName slot w with
    | none => none
    | some (true, slot1, w1) => some (true, slot1, w1)
    | some (false, slot1, w1) =>
      match ParentProto.self w1 with
      | none => none
      | some (parent, w2) =>
        ClassProto.getOwnPropertySlot hash ParentProto parent propertyName slot1 w2

/-! ## A sample class

A small table, owner and world on which the theorems below are instantiated. -/

/-- Hash of the sample table: the length of the name. -/
def sampleHash : Identifier → Nat := fun s => s.length

/-- Table with a read-only function `stop` in bucket 0 and, chained in bucket
1, a read-only value `foo`, a function `bar` and a plain value `baz`. -/
def sampleTable : HashTable :=
  ⟨2, 4,
   [⟨some "stop", 4, 34, 0, none⟩,
    ⟨some "foo", 1, 2, 0, some 2⟩,
    ⟨some "bar", 2, 32, 1, some 3⟩,
    ⟨some "baz", 3, 0, 0, none⟩],
   2⟩

/-- Table of a superclass of the sample class: a function `item` in bucket 0. -/
def sampleSuperTable : HashTable :=
  ⟨2, 2, [⟨some "item", 7, 32, 1, none⟩, ⟨none, 0, 0, 0, none⟩], 2⟩

/-- Owner whose stored values are a list token ↦ value: a read returns the
value of the token (`other 0` when there is none), a write replaces it. -/
def sampleOwner : ThisImp (List (Int × JSValue)) where
  getValueProperty := fun _ token s => ((assocGet s token).getD (JSValue.other 0), s)
  putValueProperty := fun _ token value _ s => assocPut s token value

/-- World with the global object 0 and one instance 1, both without dynamic
properties, and stored values for the tokens 1 and 3. -/
def sampleWorld : World (List (Int × JSValue)) :=
  { heap := { objects := [(0, []), (1, [])]
              fresh := 2
              globalObject := 0
              owner := [(1, JSValue.number 10), (3, JSValue.number 30)] }
    calls := [] }

/-- World whose global object holds a number under the name `X`. -/
def numberUnderX : World Unit :=
  { heap := { objects := [(0, [("X", (JSValue.number 1, 0))])]
              fresh := 1
              globalObject := 0
              owner := () }
    calls := [] }

/-- Table of a class that has only values: a read-only `size` in bucket 0 and
a plain `top` in bucket 1. -/
def sampleValueTable : HashTable :=
  ⟨2, 2, [⟨some "size", 5, 2, 0, none⟩, ⟨some "top", 6, 0, 0, none⟩], 2⟩

/-! ## Lookup lemmas -/

/-- The entry a chain walk returns carries the name as its key. -/
theorem findEntryFrom_key (table : HashTable) (name : Identifier) :
    ∀ (fuel i : Nat) (e : HashEntry),
      Lookup.findEntryFrom table name fuel i = some e → e.s = some name := by
  intro fuel
  induction fuel with
  | zero =>
    intro i e h
    simp [Lookup.findEntryFrom] at h
  | succ fuel ih =>
    intro i e h
    unfold Lookup.findEntryFrom at h
    cases hg : table.entries[i]? with
    | none => simp [hg] at h
    | some e0 =>
      simp only [hg] at h
      by_cases hk : e0.s = some name
      · simp only [hk, if_true, Option.some.injEq] at h
        rw [← h]
        exact hk
      · simp only [hk, if_false] at h
        cases hn : e0.next with
        | none => simp [hn] at h
        | some j =>
          simp only [hn] at h
          exact ih j e h

/-- The entry `findEntry` returns for a name carries that name as its key. -/
theorem findEntry_key (hash : Identifier → Nat) (table : HashTable) (name : Identifier)
    (e : HashEntry) (h : Lookup.findEntry hash table name = some e) : e.s = some name := by
  unfold Lookup.findEntry at h
  by_cases hs : table.hashSize ≤ 0
  · simp [hs] at h
  · simp only [hs, if_false] at h
    exact findEntryFrom_key table name _ _ e h

/-- The entry a chain walk returns is an entry of the array. -/
theorem findEntryFrom_mem (table : HashTable) (name : Identifier) :
    ∀ (fuel i : Nat) (e : HashEntry),
      Lookup.findEntryFrom table name fuel i = some e → e ∈ table.entries := by
  intro fuel
  induction fuel with
  | zero =>
    intro i e h
    simp [Lookup.findEntryFrom] at h
  | succ fuel ih =>
    intro i e h
    unfold Lookup.findEntryFrom at h
    cases hg : table.entries[i]? with
    | none => simp [hg] at h
    | some e0 =>
      simp only [hg] at h
      by_cases hk : e0.s = some name
      · simp only [hk, if_true, Option.some.injEq] at h
        rw [← h]
        exact List.getElem?_mem hg
      · simp only [hk, if_false] at h
        cases hn : e0.next with
        | none => simp [hn] at h
        | some j =>
          simp only [hn] at h
          exact ih j e h

/-- The entry `findEntry` returns is an entry of the array of the table. -/
theorem findEntry_mem (hash : Identifier → Nat) (table : HashTable) (name : Identifier)
    (e : HashEntry) (h : Lookup.findEntry hash table name = some e) : e ∈ table.entries := by
  unfold Lookup.findEntry at h
  by_cases hs : table.hashSize ≤ 0
  · simp [hs] at h
  · simp only [hs, if_false] at h
    exact findEntryFrom_mem table name _ _ e h

/-! ## Storage lemmas -/

section Storage

variable {κ β : Type} [DecidableEq κ]

theorem assocGet_assocPut_same (m : List (κ × β)) (k : κ) (b : β) :
    assocGet (assocPut m k b) k = some b := by
  induction m with
  | nil => simp [assocPut, assocGet]
  | cons p m ih =>
    obtain ⟨k0, b0⟩ := p
    by_cases h : k0 = k <;> simp [assocPut, assocGet, h, ih]

theorem assocGet_assocPut_other (m : List (κ × β)) (k k1 : κ) (b : β) (hne : k1 ≠ k) :
    assocGet (assocPut m k b) k1 = assocGet m k1 := by
  induction m with
  | nil =>
    have h : ¬ k = k1 := fun e => hne e.symm
    simp [assocPut, assocGet, h]
  | cons p m ih =>
    obtain ⟨k0, b0⟩ := p
    by_cases h : k0 = k
    · subst h
      have h1 : ¬ k0 = k1 := fun e => hne e.symm
      simp [assocPut, assocGet, h1]
    · by_cases h2 : k0 = k1
      · subst h2
        simp [assocPut, assocGet, h]
      · simp [assocPut, assocGet, h, h2, ih]

end Storage

section HeapLemmas

variable {σ : Type}

theorem propsOf_putDirect_same (h : Heap σ) (o : JSObject) (name : Identifier) (v : JSValue)
    (a : Int) :
    (JSObject.putDirect h o name v a).propsOf o = assocPut (h.propsOf o) name (v, a) := by
  simp [JSObject.putDirect, Heap.propsOf, assocGet_assocPut_same]

theorem propsOf_putDirect_other (h : Heap σ) (o o1 : JSObject) (name : Identifier) (v : JSValue)
    (a : Int) (hne : o1 ≠ o) :
    (JSObject.putDirect h o name v a).propsOf o1 = h.propsOf o1 := by
  simp [JSObject.putDirect, Heap.propsOf, assocGet_assocPut_other _ _ _ _ hne]

theorem getDirect_putDirect_same (h : Heap σ) (o : JSObject) (name : Identifier) (v : JSValue)
    (a : Int) :
    JSObject.getDirect (JSObject.putDirect h o name v a) o name = some v := by
  simp [JSObject.getDirect, propsOf_putDirect_same, assocGet_assocPut_same]

theorem getAttributes_putDirect_same (h : Heap σ) (o : JSObject) (name : Identifier)
    (v : JSValue) (a : Int) :
    JSObject.getAttributes (JSObject.putDirect h o name v a) o name = some a := by
  simp [JSObject.getAttributes, propsOf_putDirect_same, assocGet_assocPut_same]

theorem propsOf_putDirect_name_other (h : Heap σ) (o o1 : JSObject) (name name1 : Identifier)
    (v : JSValue) (a : Int) (hne : o1 ≠ o ∨ name1 ≠ name) :
    assocGet ((JSObject.putDirect h o name v a).propsOf o1) name1
      = assocGet (h.propsOf o1) name1 := by
  by_cases ho : o1 = o
  · subst ho
    have hn : name1 ≠ name := by
      rcases hne with h1 | h1
      · exact absurd rfl h1
      · exact h1
    rw [propsOf_putDirect_same, assocGet_assocPut_other _ _ _ _ hn]
  · rw [propsOf_putDirect_other _ _ _ _ _ _ ho]

theorem getDirect_putDirect_other (h : Heap σ) (o o1 : JSObject) (name name1 : Identifier)
    (v : JSValue) (a : Int) (hne : o1 ≠ o ∨ name1 ≠ name) :
    JSObject.getDirect (JSObject.putDirect h o name v a) o1 name1
      = JSObject.getDirect h o1 name1 := by
  simp [JSObject.getDirect, propsOf_putDirect_name_other _ _ _ _ _ _ _ hne]

theorem getAttributes_putDirect_other (h : Heap σ) (o o1 : JSObject) (name name1 : Identifier)
    (v : JSValue) (a : Int) (hne : o1 ≠ o ∨ name1 ≠ name) :
    JSObject.getAttributes (JSObject.putDirect h o name v a) o1 name1
      = JSObject.getAttributes h o1 name1 := by
  simp [JSObject.getAttributes, propsOf_putDirect_name_other _ _ _ _ _ _ _ hne]

/-- Allocation leaves the storage of every other object as it was. -/
theorem propsOf_newFuncImp_other (w : World σ) (F : FuncImp) (value params : Int)
    (o : JSObject) (hne : o ≠ w.heap.fresh) :
    (w.newFuncImp F value params).2.heap.propsOf o = w.heap.propsOf o := by
  simp [World.newFuncImp, Heap.propsOf, assocGet_assocPut_other _ _ _ _ hne]

end HeapLemmas

/-! ## Reading a function entry -/

section FunctionGetter

variable {σ : Type}

/-- A read that finds a value stored under the name returns it and leaves
the world as it is. -/
theorem staticFunctionGetter_cached (F : FuncImp) (originalObject thisObj : JSObject)
    (propertyName : Identifier) (entry : HashEntry) (g : GetValueFunc σ) (w : World σ)
    (v : JSValue) (hc : JSObject.getDirect w.heap thisObj propertyName = some v) :
    staticFunctionGetter F originalObject propertyName (.staticEntrySlot thisObj entry g) w
      = some (v, w) := by
  simp [staticFunctionGetter, PropertySlot.slotBase, hc]

/-- A read that finds nothing stored under the name builds the wrapper and
stores it. -/
theorem staticFunctionGetter_fresh (F : FuncImp) (originalObject thisObj : JSObject)
    (propertyName : Identifier) (entry : HashEntry) (g : GetValueFunc σ) (w : World σ)
    (hc : JSObject.getDirect w.heap thisObj propertyName = none) :
    staticFunctionGetter F originalObject propertyName (.staticEntrySlot thisObj entry g) w
      = some (JSValue.object w.heap.fresh,
          { heap := JSObject.putDirect (w.newFuncImp F entry.value entry.params).2.heap thisObj
                      propertyName (JSValue.object w.heap.fresh) entry.attr
            calls := w.calls ++ [Call.newFuncImp entry.value entry.params] }) := by
  simp [staticFunctionGetter, PropertySlot.slotBase, PropertySlot.staticEntry, hc,
    World.newFuncImp]

/-- C1. Realizing the function slot of an entry twice in a row, from any
state of the storage of the instance, returns the identical value both times;
the second read changes nothing, and over the two reads the constructor of
the wrapper class is called once when nothing was stored under the name and
not at all otherwise.  The getter never looks at the flags of the entry, so
this holds for every entry, in particular for those with the Function flag. -/
theorem staticFunctionGetter_twice (F : FuncImp) (originalObject thisObj : JSObject)
    (propertyName : Identifier) (entry : HashEntry) (g : GetValueFunc σ) (w : World σ) :
    ∃ (v : JSValue) (w1 : World σ),
      staticFunctionGetter F originalObject propertyName (.staticEntrySlot thisObj entry g) w
        = some (v, w1)
      ∧ staticFunctionGetter F originalObject propertyName (.staticEntrySlot thisObj entry g) w1
        = some (v, w1)
      ∧ w1.calls = w.calls ++
          (if (JSObject.getDirect w.heap thisObj propertyName).isSome then []
           else [Call.newFuncImp entry.value entry.params])
      ∧ (w1.calls.count (Call.newFuncImp entry.value entry.params)
          = w.calls.count (Call.newFuncImp entry.value entry.params)
            + (if (JSObject.getDirect w.heap thisObj propertyName).isSome then 0 else 1)) := by
  cases hc : JSObject.getDirect w.heap thisObj propertyName with
  | some v =>
    refine ⟨v, w, ?_, ?_, ?_, ?_⟩
    · exact staticFunctionGetter_cached F _ _ _ _ _ _ v hc
    · exact staticFunctionGetter_cached F _ _ _ _ _ _ v hc
    · simp
    · simp
  | none =>
    refine ⟨_, _, staticFunctionGetter_fresh F _ _ _ _ _ _ hc, ?_, ?_, ?_⟩
    · exact staticFunctionGetter_cached F _ _ _ _ _ _ _ (getDirect_putDirect_same _ _ _ _ _)
    · simp
    · simp [List.count_append]

/-- C10. For an instance (an object allocated before the read) whose storage
holds nothing under the name, realizing the function slot builds one wrapper from the token value and the
parameter count of the entry, stores that wrapper under the name with exactly
the attribute flags of the entry, returns it, and changes no other stored
property of the instance or of any other object that existed before. -/
theorem staticFunctionGetter_materializes (F : FuncImp) (originalObject thisObj : JSObject)
    (propertyName : Identifier) (entry : HashEntry) (g : GetValueFunc σ) (w : World σ)
    (hlive : thisObj < w.heap.fresh)
    (hc : JSObject.getDirect w.heap thisObj propertyName = none) :
    ∃ w1 : World σ,
      staticFunctionGetter F originalObject propertyName (.staticEntrySlot thisObj entry g) w
        = some (JSValue.object w.heap.fresh, w1)
      ∧ w1.calls = w.calls ++ [Call.newFuncImp entry.value entry.params]
      ∧ w1.heap.propsOf w.heap.fresh = F.ctor entry.value entry.params
      ∧ JSObject.getDirect w1.heap thisObj propertyName = some (JSValue.object w.heap.fresh)
      ∧ JSObject.getAttributes w1.heap thisObj propertyName = some entry.attr
      ∧ (∀ (o : JSObject) (name : Identifier), o < w.heap.fresh →
          (o ≠ thisObj ∨ name ≠ propertyName) →
          JSObject.getDirect w1.heap o name = JSObject.getDirect w.heap o name
          ∧ JSObject.getAttributes w1.heap o name = JSObject.getAttributes w.heap o name)
      ∧ w1.heap.owner = w.heap.owner
      ∧ w1.heap.globalObject = w.heap.globalObject := by
  refine ⟨_, staticFunctionGetter_fresh F _ _ _ _ _ _ hc, rfl, ?_, ?_, ?_, ?_, rfl, rfl⟩
  · have hne : w.heap.fresh ≠ thisObj := Nat.ne_of_gt hlive
    rw [propsOf_putDirect_other _ _ _ _ _ _ hne]
    simp [World.newFuncImp, Heap.propsOf, assocGet_assocPut_same]
  · exact getDirect_putDirect_same _ _ _ _ _
  · exact getAttributes_putDirect_same _ _ _ _ _
  · intro o name ho hne
    have hof : o ≠ w.heap.fresh := Nat.ne_of_lt ho
    have hp := propsOf_newFuncImp_other w F entry.value entry.params o hof
    constructor
    · rw [getDirect_putDirect_other _ _ _ _ _ _ _ hne]
      simp [JSObject.getDirect, hp]
    · rw [getAttributes_putDirect_other _ _ _ _ _ _ _ hne]
      simp [JSObject.getAttributes, hp]

end FunctionGetter

/-! ## Writing through the table -/

section Put

variable {σ : Type}

/-- The write of a name whose entry has the Function flag. -/
theorem lookupPut_function (hash : Identifier → Nat) (T : ThisImp σ) (P : ParentImp σ)
    (table : HashTable) (thisObj : JSObject) (propertyName : Identifier) (value : JSValue)
    (attr : Int) (entry : HashEntry) (w : World σ)
    (hfind : Lookup.findEntry hash table propertyName = some entry)
    (hfun : hasFlag entry.attr Function = true) :
    lookupPut hash T P propertyName value attr table thisObj w
      = { heap := JSObject.putDirect w.heap thisObj propertyName value attr
          calls := w.calls ++ [Call.JSObject_put thisObj propertyName value attr] } := by
  simp [lookupPut, hfind, hfun, JSObject.put]

/-- C2. For an entry with the Function flag, whatever its other flags, after
lookupPut writes a value under the name of the entry (the name the lookup
matched is the key of the entry), the value is stored in
the dynamic-property storage of the instance under that name with the
attributes of the caller, and the next read through the function slot returns
that value, builds no wrapper and changes nothing; the same holds when a read
came before the write. -/
theorem lookupPut_function_override (hash : Identifier → Nat) (F : FuncImp) (T : ThisImp σ)
    (P : ParentImp σ) (table : HashTable) (originalObject thisObj : JSObject)
    (propertyName : Identifier) (value : JSValue) (attr : Int) (entry : HashEntry)
    (w : World σ)
    (hfind : Lookup.findEntry hash table propertyName = some entry)
    (hfun : hasFlag entry.attr Function = true) :
    entry.s = some propertyName
    ∧ JSObject.getDirect (lookupPut hash T P propertyName value attr table thisObj w).heap
        thisObj propertyName = some value
    ∧ JSObject.getAttributes (lookupPut hash T P propertyName value attr table thisObj w).heap
        thisObj propertyName = some attr
    ∧ (lookupPut hash T P propertyName value attr table thisObj w).calls
        = w.calls ++ [Call.JSObject_put thisObj propertyName value attr]
    ∧ staticFunctionGetter F originalObject propertyName
          (.staticEntrySlot thisObj entry (.staticFunctionGetter F))
          (lookupPut hash T P propertyName value attr table thisObj w)
        = some (value, lookupPut hash T P propertyName value attr table thisObj w)
    ∧ (∀ (v0 : JSValue) (w0 : World σ),
        staticFunctionGetter F originalObject propertyName
            (.staticEntrySlot thisObj entry (.staticFunctionGetter F)) w = some (v0, w0) →
        staticFunctionGetter F originalObject propertyName
            (.staticEntrySlot thisObj entry (.staticFunctionGetter F))
            (lookupPut hash T P propertyName value attr table thisObj w0)
          = some (value, lookupPut hash T P propertyName value attr table thisObj w0)) := by
  have key : ∀ w2 : World σ,
      JSObject.getDirect (lookupPut hash T P propertyName value attr table thisObj w2).heap
        thisObj propertyName = some value := by
    intro w2
    rw [lookupPut_function hash T P table thisObj propertyName value attr entry w2 hfind hfun]
    exact getDirect_putDirect_same _ _ _ _ _
  refine ⟨findEntry_key hash table propertyName entry hfind, key w, ?_, ?_, ?_, ?_⟩
  · rw [lookupPut_function hash T P table thisObj propertyName value attr entry w hfind hfun]
    exact getAttributes_putDirect_same _ _ _ _ _
  · rw [lookupPut_function hash T P table thisObj propertyName value attr entry w hfind hfun]
  · exact staticFunctionGetter_cached F _ _ _ _ _ _ value (key w)
  · intro v0 w0 _
    exact staticFunctionGetter_cached F _ _ _ _ _ _ value (key w0)

/-- C3. For an entry found in the table that has the ReadOnly flag and not the
Function flag, lookupPut returns the world it was given: the dynamic-property
storage and the stored values of the owner are unchanged and no collaborator
is called; so a read of the token after the write computes what a read before
it computes. -/
theorem lookupPut_readOnly_noop (hash : Identifier → Nat) (T : ThisImp σ) (P : ParentImp σ)
    (table : HashTable) (originalObject thisObj : JSObject) (propertyName : Identifier)
    (value : JSValue) (attr : Int) (entry : HashEntry) (w : World σ)
    (hfind : Lookup.findEntry hash table propertyName = some entry)
    (hro : hasFlag entry.attr ReadOnly = true)
    (hnf : hasFlag entry.attr Function = false) :
    lookupPut hash T P propertyName value attr table thisObj w = w
    ∧ (lookupPut hash T P propertyName value attr table thisObj w).heap.objects = w.heap.objects
    ∧ (lookupPut hash T P propertyName value attr table thisObj w).heap.owner = w.heap.owner
    ∧ (lookupPut hash T P propertyName value attr table thisObj w).calls = w.calls
    ∧ staticValueGetter T originalObject propertyName
          (.staticEntrySlot thisObj entry (.staticValueGetter T))
          (lookupPut hash T P propertyName value attr table thisObj w)
        = staticValueGetter T originalObject propertyName
            (.staticEntrySlot thisObj entry (.staticValueGetter T)) w := by
  have h : lookupPut hash T P propertyName value attr table thisObj w = w := by
    simp [lookupPut, hfind, hro, hnf]
  simp [h]

/-- C7. For an entry found in the table with neither the Function nor the
ReadOnly flag, lookupPut calls putValueProperty of the owner once, with the
token value of the entry, the new value and the attributes, and does nothing
else: the dynamic-property storage is untouched and no parent is called. -/
theorem lookupPut_value_forwards (hash : Identifier → Nat) (T : ThisImp σ) (P : ParentImp σ)
    (table : HashTable) (thisObj : JSObject) (propertyName : Identifier) (value : JSValue)
    (attr : Int) (entry : HashEntry) (w : World σ)
    (hfind : Lookup.findEntry hash table propertyName = some entry)
    (hnf : hasFlag entry.attr Function = false)
    (hnro : hasFlag entry.attr ReadOnly = false) :
    lookupPut hash T P propertyName value attr table thisObj w
      = { heap := { w.heap with
                      owner := T.putValueProperty thisObj entry.value value attr w.heap.owner }
          calls := w.calls ++ [Call.putValueProperty thisObj entry.value value attr] }
    ∧ (lookupPut hash T P propertyName value attr table thisObj w).heap.objects
        = w.heap.objects := by
  have h : lookupPut hash T P propertyName value attr table thisObj w
      = { heap := { w.heap with
                      owner := T.putValueProperty thisObj entry.value value attr w.heap.owner }
          calls := w.calls ++ [Call.putValueProperty thisObj entry.value value attr] } := by
    simp [lookupPut, hfind, hnf, hnro]
  exact ⟨h, by rw [h]⟩

/-- C8. When the table lookup finds no entry for the name, lookupPut calls the
put of the parent class once, with the same name, value and attributes, and
does nothing else; when the parent is the plain object, the instance ends up
with a dynamic property of that name holding the given value and attributes,
and every other stored property and the stored values of the owner are as
before. -/
theorem lookupPut_notFound_delegates (hash : Identifier → Nat) (T : ThisImp σ)
    (P : ParentImp σ) (table : HashTable) (thisObj : JSObject) (propertyName : Identifier)
    (value : JSValue) (attr : Int) (w : World σ)
    (hfind : Lookup.findEntry hash table propertyName = none) :
    lookupPut hash T P propertyName value attr table thisObj w
      = { heap := P.put thisObj propertyName value attr w.heap
          calls := w.calls ++ [Call.parentPut thisObj propertyName value attr] }
    ∧ JSObject.getDirect
          (lookupPut hash T (JSObjectImp σ) propertyName value attr table thisObj w).heap
          thisObj propertyName = some value
    ∧ JSObject.getAttributes
          (lookupPut hash T (JSObjectImp σ) propertyName value attr table thisObj w).heap
          thisObj propertyName = some attr
    ∧ (∀ (o : JSObject) (name : Identifier), (o ≠ thisObj ∨ name ≠ propertyName) →
        JSObject.getDirect
            (lookupPut hash T (JSObjectImp σ) propertyName value attr table thisObj w).heap
            o name = JSObject.getDirect w.heap o name
        ∧ JSObject.getAttributes
            (lookupPut hash T (JSObjectImp σ) propertyName value attr table thisObj w).heap
            o name = JSObject.getAttributes w.heap o name)
    ∧ (lookupPut hash T (JSObjectImp σ) propertyName value attr table thisObj w).heap.owner
        = w.heap.owner := by
  have h : ∀ Q : ParentImp σ, lookupPut hash T Q propertyName value attr table thisObj w
      = { heap := Q.put thisObj propertyName value attr w.heap
          calls := w.calls ++ [Call.parentPut thisObj propertyName value attr] } := by
    intro Q
    simp [lookupPut, hfind]
  refine ⟨h P, ?_, ?_, ?_, ?_⟩
  · rw [h]
    exact getDirect_putDirect_same _ _ _ _ _
  · rw [h]
    exact getAttributes_putDirect_same _ _ _ _ _
  · intro o name hne
    rw [h]
    exact ⟨getDirect_putDirect_other _ _ _ _ _ _ _ hne,
      getAttributes_putDirect_other _ _ _ _ _ _ _ hne⟩
  · rw [h]
    rfl

end Put

/-! ## Looking a name up -/

section Slot

variable {σ : Type}

/-- The getter that `getStaticPropertySlot` stores for an entry. -/
theorem getStaticPropertySlot_some (hash : Identifier → Nat) (F : FuncImp) (T : ThisImp σ)
    (P : ParentImp σ) (table : HashTable) (thisObj : JSObject) (propertyName : Identifier)
    (slot : PropertySlot σ) (entry : HashEntry) (w : World σ)
    (hfind : Lookup.findEntry hash table propertyName = some entry) :
    getStaticPropertySlot hash F T P table thisObj propertyName slot w
      = (true,
         .staticEntrySlot thisObj entry
           (if hasFlag entry.attr Function then .staticFunctionGetter F
            else .staticValueGetter T),
         w) := by
  by_cases hf : hasFlag entry.attr Function = true <;>
    simp [getStaticPropertySlot, hfind, hf, PropertySlot.setStaticEntry]

/-- The forwarding of `getStaticPropertySlot` for a name without entry. -/
theorem getStaticPropertySlot_none (hash : Identifier → Nat) (F : FuncImp) (T : ThisImp σ)
    (P : ParentImp σ) (table : HashTable) (thisObj : JSObject) (propertyName : Identifier)
    (slot : PropertySlot σ) (w : World σ)
    (hfind : Lookup.findEntry hash table propertyName = none) :
    getStaticPropertySlot hash F T P table thisObj propertyName slot w
      = callParentGetOwnPropertySlot P thisObj propertyName slot w := by
  simp [getStaticPropertySlot, hfind]

/-- C9. When the table lookup finds an entry, getStaticPropertySlot returns
true and the world it was given (no parent is consulted, no wrapper is built,
getValueProperty is not called, the dynamic-property storage is untouched);
the slot records the instance as slot base, the matched entry, and the
function getter exactly when the Function flag of the entry is set, the value
getter otherwise. -/
theorem getStaticPropertySlot_found (hash : Identifier → Nat) (F : FuncImp) (T : ThisImp σ)
    (P : ParentImp σ) (table : HashTable) (thisObj : JSObject) (propertyName : Identifier)
    (slot : PropertySlot σ) (entry : HashEntry) (w : World σ)
    (hfind : Lookup.findEntry hash table propertyName = some entry) :
    ∃ g : GetValueFunc σ,
      getStaticPropertySlot hash F T P table thisObj propertyName slot w
        = (true, .staticEntrySlot thisObj entry g, w)
      ∧ (PropertySlot.staticEntrySlot thisObj entry g).slotBase = some thisObj
      ∧ (PropertySlot.staticEntrySlot thisObj entry g).staticEntry = some entry
      ∧ (g = .staticFunctionGetter F ↔ hasFlag entry.attr Function = true)
      ∧ (g = .staticValueGetter T ↔ hasFlag entry.attr Function = false) := by
  refine ⟨_, getStaticPropertySlot_some hash F T P table thisObj propertyName slot entry w hfind,
    rfl, rfl, ?_, ?_⟩
  · by_cases hf : hasFlag entry.attr Function = true <;> simp [hf]
  · by_cases hf : hasFlag entry.attr Function = true <;> simp [hf]

/-- C6. For an entry without the Function flag, realizing the slot that
getStaticPropertySlot set returns what getValueProperty of the owner computes
for the token value of the entry; every read calls the owner once, also when
a value is stored under the same name in the dynamic-property storage of the
instance, which is never consulted and is left unchanged. -/
theorem staticValueGetter_computes (hash : Identifier → Nat) (F : FuncImp) (T : ThisImp σ)
    (P : ParentImp σ) (table : HashTable) (originalObject thisObj : JSObject)
    (propertyName : Identifier) (slot : PropertySlot σ) (entry : HashEntry) (w : World σ)
    (hfind : Lookup.findEntry hash table propertyName = some entry)
    (hnf : hasFlag entry.attr Function = false) :
    (getStaticPropertySlot hash F T P table thisObj propertyName slot w).2.1
      = .staticEntrySlot thisObj entry (.staticValueGetter T)
    ∧ (∀ w1 : World σ,
        PropertySlot.getValue (.staticEntrySlot thisObj entry (.staticValueGetter T))
            originalObject propertyName w1
          = some ((T.getValueProperty thisObj entry.value w1.heap.owner).1,
              { heap := { w1.heap with
                            owner := (T.getValueProperty thisObj entry.value w1.heap.owner).2 }
                calls := w1.calls ++ [Call.getValueProperty thisObj entry.value] }))
    ∧ (∀ (w1 : World σ) (v : JSValue) (w2 : World σ),
        staticValueGetter T originalObject propertyName
            (.staticEntrySlot thisObj entry (.staticValueGetter T)) w1 = some (v, w2) →
        v = (T.getValueProperty thisObj entry.value w1.heap.owner).1
        ∧ w2.heap.objects = w1.heap.objects
        ∧ w2.calls = w1.calls ++ [Call.getValueProperty thisObj entry.value])
    ∧ (∀ (w1 : World σ) (cached : JSValue) (a : Int),
        (staticValueGetter T originalObject propertyName
            (.staticEntrySlot thisObj entry (.staticValueGetter T))
            { w1 with heap := JSObject.putDirect w1.heap thisObj propertyName cached a }).map
          Prod.fst
        = some (T.getValueProperty thisObj entry.value w1.heap.owner).1) := by
  refine ⟨?_, ?_, ?_, ?_⟩
  · rw [getStaticPropertySlot_some hash F T P table thisObj propertyName slot entry w hfind]
    simp [hnf]
  · intro w1
    simp [PropertySlot.getValue, staticValueGetter, PropertySlot.slotBase,
      PropertySlot.staticEntry]
  · intro w1 v w2 h
    simp only [staticValueGetter, PropertySlot.slotBase, PropertySlot.staticEntry,
      Option.some.injEq, Prod.mk.injEq] at h
    obtain ⟨hv, hw⟩ := h
    subst hv
    subst hw
    exact ⟨rfl, rfl, rfl⟩
  · intro w1 cached a
    simp [staticValueGetter, PropertySlot.slotBase, PropertySlot.staticEntry,
      JSObject.putDirect]

/-- A name found at some level of a chain of superclasses, and at no level
before it, resolves to the entry of that level. -/
theorem classChain_found (hash : Identifier → Nat) (base : ParentImp σ) (thisObj : JSObject)
    (propertyName : Identifier) (lvl : TableLevel σ) (post : List (TableLevel σ))
    (entry : HashEntry) (hfind : Lookup.findEntry hash lvl.table propertyName = some entry) :
    ∀ (pre : List (TableLevel σ)),
      (∀ l ∈ pre, Lookup.findEntry hash l.table propertyName = none) →
      ∀ (slot : PropertySlot σ) (h : Heap σ),
        (classChain hash base (pre ++ lvl :: post)).getOwnPropertySlot thisObj propertyName
            slot h
          = (true,
             .staticEntrySlot thisObj entry
               (if hasFlag entry.attr Function then .staticFunctionGetter lvl.funcImp
                else .staticValueGetter lvl.thisImp),
             h) := by
  intro pre
  induction pre with
  | nil =>
    intro _ slot h
    simp only [List.nil_append, classChain, tableClass]
    rw [getStaticPropertySlot_some hash _ _ _ _ thisObj propertyName slot entry _ hfind]
  | cons l pre ih =>
    intro hpre slot h
    have hl : Lookup.findEntry hash l.table propertyName = none :=
      hpre l (List.mem_cons_self _ _)
    have hrest : ∀ l1 ∈ pre, Lookup.findEntry hash l1.table propertyName = none :=
      fun l1 h1 => hpre l1 (List.mem_cons_of_mem _ h1)
    simp only [List.cons_append, classChain, tableClass]
    rw [getStaticPropertySlot_none hash _ _ _ _ thisObj propertyName slot _ hl]
    simp only [callParentGetOwnPropertySlot, List.append_eq]
    rw [ih hrest slot h]

/-- A name found at no level of a chain of superclasses gets the answer of the
class that ends the chain. -/
theorem classChain_absent (hash : Identifier → Nat) (base : ParentImp σ) (thisObj : JSObject)
    (propertyName : Identifier) :
    ∀ (levels : List (TableLevel σ)),
      (∀ l ∈ levels, Lookup.findEntry hash l.table propertyName = none) →
      ∀ (slot : PropertySlot σ) (h : Heap σ),
        (classChain hash base levels).getOwnPropertySlot thisObj propertyName slot h
          = base.getOwnPropertySlot thisObj propertyName slot h := by
  intro levels
  induction levels with
  | nil =>
    intro _ slot h
    rfl
  | cons l levels ih =>
    intro hall slot h
    have hl : Lookup.findEntry hash l.table propertyName = none :=
      hall l (List.mem_cons_self _ _)
    have hrest : ∀ l1 ∈ levels, Lookup.findEntry hash l1.table propertyName = none :=
      fun l1 h1 => hall l1 (List.mem_cons_of_mem _ h1)
    simp only [classChain, tableClass]
    rw [getStaticPropertySlot_none hash _ _ _ _ thisObj propertyName slot _ hl]
    simp only [callParentGetOwnPropertySlot]
    rw [ih hrest slot h]

/-- C5. When the table lookup finds no entry for the name, getStaticPropertySlot
calls getOwnPropertySlot of the parent class once for the same instance and
name and returns exactly its boolean, with the slot and the heap exactly as
the parent left them.  Hence, in a hierarchy of classes that each look up
their own table, a name absent from the table of the subclass and present in
the table of a superclass resolves to the entry of the nearest such
superclass; a name absent from every table gets the answer of the class that
ends the chain, and when that class is the plain object and the name is not
among the dynamic properties of the instance either, it reports not-found. -/
theorem getStaticPropertySlot_notFound_delegates (hash : Identifier → Nat) (F : FuncImp)
    (T : ThisImp σ) (P : ParentImp σ) (table : HashTable) (thisObj : JSObject)
    (propertyName : Identifier) (slot : PropertySlot σ) (w : World σ)
    (hfind : Lookup.findEntry hash table propertyName = none) :
    getStaticPropertySlot hash F T P table thisObj propertyName slot w
      = ((P.getOwnPropertySlot thisObj propertyName slot w.heap).1,
         (P.getOwnPropertySlot thisObj propertyName slot w.heap).2.1,
         { heap := (P.getOwnPropertySlot thisObj propertyName slot w.heap).2.2
           calls := w.calls ++ [Call.parentGetOwnPropertySlot thisObj propertyName] })
    ∧ (∀ (base : ParentImp σ) (pre : List (TableLevel σ)) (lvl : TableLevel σ)
        (post : List (TableLevel σ)) (entry : HashEntry),
        (∀ l ∈ pre, Lookup.findEntry hash l.table propertyName = none) →
        Lookup.findEntry hash lvl.table propertyName = some entry →
        getStaticPropertySlot hash F T (classChain hash base (pre ++ lvl :: post)) table
            thisObj propertyName slot w
          = (true,
             .staticEntrySlot thisObj entry
               (if hasFlag entry.attr Function then .staticFunctionGetter lvl.funcImp
                else .staticValueGetter lvl.thisImp),
             { heap := w.heap
               calls := w.calls ++ [Call.parentGetOwnPropertySlot thisObj propertyName] }))
    ∧ (∀ (base : ParentImp σ) (levels : List (TableLevel σ)),
        (∀ l ∈ levels, Lookup.findEntry hash l.table propertyName = none) →
        getStaticPropertySlot hash F T (classChain hash base levels) table thisObj
            propertyName slot w
          = ((base.getOwnPropertySlot thisObj propertyName slot w.heap).1,
             (base.getOwnPropertySlot thisObj propertyName slot w.heap).2.1,
             { heap := (base.getOwnPropertySlot thisObj propertyName slot w.heap).2.2
               calls := w.calls ++ [Call.parentGetOwnPropertySlot thisObj propertyName] }))
    ∧ (∀ (levels : List (TableLevel σ)),
        (∀ l ∈ levels, Lookup.findEntry hash l.table propertyName = none) →
        JSObject.getDirect w.heap thisObj propertyName = none →
        getStaticPropertySlot hash F T (classChain hash (JSObjectImp σ) levels) table thisObj
            propertyName slot w
          = (false, slot,
             { heap := w.heap
               calls := w.calls ++ [Call.parentGetOwnPropertySlot thisObj propertyName] })) := by
  have h : ∀ Q : ParentImp σ,
      getStaticPropertySlot hash F T Q table thisObj propertyName slot w
        = ((Q.getOwnPropertySlot thisObj propertyName slot w.heap).1,
           (Q.getOwnPropertySlot thisObj propertyName slot w.heap).2.1,
           { heap := (Q.getOwnPropertySlot thisObj propertyName slot w.heap).2.2
             calls := w.calls ++ [Call.parentGetOwnPropertySlot thisObj propertyName] }) := by
    intro Q
    rw [getStaticPropertySlot_none hash F T Q table thisObj propertyName slot w hfind]
    rfl
  refine ⟨h P, ?_, ?_, ?_⟩
  · intro base pre lvl post entry hpre hlvl
    rw [h, classChain_found hash base thisObj propertyName lvl post entry hlvl pre hpre slot
      w.heap]
  · intro base levels hall
    rw [h, classChain_absent hash base thisObj propertyName levels hall slot w.heap]
  · intro levels hall hd
    rw [h, classChain_absent hash (JSObjectImp σ) thisObj propertyName levels hall slot w.heap]
    simp [JSObjectImp, JSObject.getOwnPropertySlot, hd]

end Slot

/-! ## The cached global objects -/

section Cache

variable {σ : Type}

/-- A call that finds an object stored under the name returns it and leaves
the world as it is. -/
theorem cacheGlobalObject_stored (C : ClassCtor) (propertyName : Identifier) (w : World σ)
    (o : JSObject)
    (hs : JSObject.getDirect w.heap w.heap.globalObject propertyName = some (JSValue.object o)) :
    cacheGlobalObject C propertyName w = some (o, w) := by
  simp [cacheGlobalObject, hs, JSValue.isObject, JSValue.toObject]

/-- A call that finds nothing stored under the name builds the object and
stores it under the name with the attribute Internal. -/
theorem cacheGlobalObject_absent (C : ClassCtor) (propertyName : Identifier) (w : World σ)
    (hs : JSObject.getDirect w.heap w.heap.globalObject propertyName = none) :
    cacheGlobalObject C propertyName w
      = some (w.heap.fresh,
          { heap := JSObject.putDirect (w.newClassCtor C).2.heap w.heap.globalObject
                      propertyName (JSValue.object w.heap.fresh) Internal
            calls := w.calls ++ [Call.newClassCtor,
              Call.globalObjectPut propertyName (JSValue.object w.heap.fresh) Internal] }) := by
  simp [cacheGlobalObject, hs, World.newClassCtor, JSObject.put]

/-- The assertion of cacheGlobalObject fails on a global object that holds a
number under the name: no object is returned, so two successive calls do not
return the same object. -/
theorem cacheGlobalObject_number_fails :
    JSObject.getDirect numberUnderX.heap numberUnderX.heap.globalObject "X"
      = some (JSValue.number 1)
    ∧ cacheGlobalObject ⟨[]⟩ "X" numberUnderX = none
    ∧ ¬ ∃ (o : JSObject) (w1 w2 : World Unit),
        cacheGlobalObject ⟨[]⟩ "X" numberUnderX = some (o, w1)
        ∧ cacheGlobalObject ⟨[]⟩ "X" w1 = some (o, w2) := by
  have h : cacheGlobalObject ⟨[]⟩ "X" numberUnderX = none := by decide
  refine ⟨by decide, h, ?_⟩
  rintro ⟨o, w1, w2, h1, _⟩
  rw [h] at h1
  exact Option.noConfusion h1

/-- C4, amended. For every global object and property name under which
nothing or an object is stored, two successive calls of cacheGlobalObject
return the same object and the second call changes nothing; the constructor
runs once over the two calls when nothing was stored under the name, and when
an object is stored under the name the call returns it and the constructor
does not run. -/
theorem cacheGlobalObject_twice (C : ClassCtor) (propertyName : Identifier) (w : World σ)
    (hobj : ∀ v : JSValue,
      JSObject.getDirect w.heap w.heap.globalObject propertyName = some v → v.isObject = true) :
    ∃ (o : JSObject) (w1 : World σ),
      cacheGlobalObject C propertyName w = some (o, w1)
      ∧ cacheGlobalObject C propertyName w1 = some (o, w1)
      ∧ w1.calls.count Call.newClassCtor
          = w.calls.count Call.newClassCtor
            + (if (JSObject.getDirect w.heap w.heap.globalObject propertyName).isSome then 0
               else 1)
      ∧ (∀ o0 : JSObject,
          JSObject.getDirect w.heap w.heap.globalObject propertyName
            = some (JSValue.object o0) → o = o0 ∧ w1 = w)
      ∧ (JSObject.getDirect w.heap w.heap.globalObject propertyName = none →
          o = w.heap.fresh
          ∧ JSObject.getDirect w1.heap w.heap.globalObject propertyName
              = some (JSValue.object o)
          ∧ JSObject.getAttributes w1.heap w.heap.globalObject propertyName
              = some Internal) := by
  cases hs : JSObject.getDirect w.heap w.heap.globalObject propertyName with
  | some v =>
    have hv := hobj v hs
    cases v with
    | object o0 =>
      have h1 := cacheGlobalObject_stored C propertyName w o0 hs
      refine ⟨o0, w, h1, h1, by simp, ?_, ?_⟩
      · intro o1 ho1
        simp only [Option.some.injEq, JSValue.object.injEq] at ho1
        exact ⟨ho1, rfl⟩
      · intro hn
        exact Option.noConfusion hn
    | number n => simp [JSValue.isObject] at hv
    | other n => simp [JSValue.isObject] at hv
  | none =>
    have h1 := cacheGlobalObject_absent C propertyName w hs
    have hg : JSObject.getDirect
        (JSObject.putDirect (w.newClassCtor C).2.heap w.heap.globalObject
          propertyName (JSValue.object w.heap.fresh) Internal)
        w.heap.globalObject propertyName = some (JSValue.object w.heap.fresh) :=
      getDirect_putDirect_same _ _ _ _ _
    refine ⟨_, _, h1, ?_, ?_, ?_, ?_⟩
    · exact cacheGlobalObject_stored C propertyName _ w.heap.fresh hg
    · simp [List.count_append, List.count_cons]
    · intro o0 h0
      exact Option.noConfusion h0
    · intro _
      exact ⟨rfl, hg, getAttributes_putDirect_same _ _ _ _ _⟩

end Cache

/-! ## Prototype classes -/

section Proto

variable {σ : Type}

/-- A prototype class with a parent forwards a name that is neither in its
table nor among the dynamic properties of its object to the prototype object
of the parent class. -/
theorem ClassProto_withParent_delegates (hash : Identifier → Nat) (ClassName : String)
    (table : HashTable) (ClassFunc : FuncImp) (ParentProto : ClassProto) (this : JSObject)
    (propertyName : Identifier) (slot : PropertySlot σ) (w : World σ)
    (hfind : Lookup.findEntry hash table propertyName = none)
    (hdyn : JSObject.getDirect w.heap this propertyName = none) :
    ClassProto.getOwnPropertySlot hash
        (.KJS_IMPLEMENT_PROTOTYPE_WITH_PARENT ClassName table ClassFunc ParentProto)
        this propertyName slot w
      = match ParentProto.self (w.record (Call.parentGetOwnPropertySlot this propertyName)) with
        | none => none
        | some (parent, w2) =>
          ClassProto.getOwnPropertySlot hash ParentProto parent propertyName slot w2 := by
  simp [ClassProto.getOwnPropertySlot, getStaticFunctionSlot, hfind,
    callParentGetOwnPropertySlot, JSObjectImp, JSObject.getOwnPropertySlot, hdyn, World.record]

/-- A dynamic property stored on the prototype object itself under a name that
is not in its table is found before the parent is asked. -/
theorem ClassProto_own_property_shadows (hash : Identifier → Nat) (ClassName : String)
    (table : HashTable) (ClassFunc : FuncImp) (ParentProto : ClassProto) (this : JSObject)
    (propertyName : Identifier) (slot : PropertySlot σ) (w : World σ) (v : JSValue)
    (hfind : Lookup.findEntry hash table propertyName = none)
    (hdyn : JSObject.getDirect w.heap this propertyName = some v) :
    ClassProto.getOwnPropertySlot hash
        (.KJS_IMPLEMENT_PROTOTYPE_WITH_PARENT ClassName table ClassFunc ParentProto)
        this propertyName slot w
      = some (true, .valueSlot this propertyName,
          w.record (Call.parentGetOwnPropertySlot this propertyName)) := by
  simp [ClassProto.getOwnPropertySlot, getStaticFunctionSlot, hfind,
    callParentGetOwnPropertySlot, JSObjectImp, JSObject.getOwnPropertySlot, hdyn, World.record,
    PropertySlot.setValueSlot]

/-- A function of the parent prototype class is found through the prototype
object of the parent, which becomes the slot base. -/
theorem ClassProto_resolves_in_parent (hash : Identifier → Nat) (ClassName ParentName : String)
    (table parentTable : HashTable) (ClassFunc ParentFunc : FuncImp) (this parent : JSObject)
    (propertyName : Identifier) (slot : PropertySlot σ) (w : World σ) (entry : HashEntry)
    (hfind : Lookup.findEntry hash table propertyName = none)
    (hdyn : JSObject.getDirect w.heap this propertyName = none)
    (hself : JSObject.getDirect w.heap w.heap.globalObject
      ("[[" ++ ParentName ++ ".prototype]]") = some (JSValue.object parent))
    (hparent : Lookup.findEntry hash parentTable propertyName = some entry)
    (hfun : hasFlag entry.attr Function = true) :
    ClassProto.getOwnPropertySlot hash
        (.KJS_IMPLEMENT_PROTOTYPE_WITH_PARENT ClassName table ClassFunc
          (.KJS_IMPLEMENT_PROTOTYPE ParentName parentTable ParentFunc))
        this propertyName slot w
      = some (true, .staticEntrySlot parent entry (.staticFunctionGetter ParentFunc),
          w.record (Call.parentGetOwnPropertySlot this propertyName)) := by
  rw [ClassProto_withParent_delegates hash ClassName table ClassFunc _ this propertyName slot w
    hfind hdyn]
  have hs : ClassProto.self (.KJS_IMPLEMENT_PROTOTYPE ParentName parentTable ParentFunc)
      (w.record (Call.parentGetOwnPropertySlot this propertyName))
      = some (parent, w.record (Call.parentGetOwnPropertySlot this propertyName)) :=
    cacheGlobalObject_stored _ _ _ parent hself
  rw [hs]
  simp [ClassProto.getOwnPropertySlot, getStaticFunctionSlot, hparent, hfun,
    PropertySlot.setStaticEntry]

end Proto

/-! ## The simplified entry points -/

section Simplified

variable {σ : Type}

/-- The assertion of `getStaticFunctionSlot` fails exactly on a found entry
without the Function flag. -/
theorem getStaticFunctionSlot_eq_none (hash : Identifier → Nat) (F : FuncImp)
    (P : ParentImp σ) (table : HashTable) (thisObj : JSObject) (propertyName : Identifier)
    (slot : PropertySlot σ) (w : World σ) :
    getStaticFunctionSlot hash F P table thisObj propertyName slot w = none
      ↔ ∃ e : HashEntry, Lookup.findEntry hash table propertyName = some e
          ∧ hasFlag e.attr Function = false := by
  cases hf : Lookup.findEntry hash table propertyName with
  | none => simp [getStaticFunctionSlot, hf]
  | some e =>
    by_cases hb : hasFlag e.attr Function = true <;> simp [getStaticFunctionSlot, hf, hb]

/-- The assertion of `getStaticValueSlot` fails exactly on a found entry with
the Function flag. -/
theorem getStaticValueSlot_eq_none (hash : Identifier → Nat) (T : ThisImp σ)
    (P : ParentImp σ) (table : HashTable) (thisObj : JSObject) (propertyName : Identifier)
    (slot : PropertySlot σ) (w : World σ) :
    getStaticValueSlot hash T P table thisObj propertyName slot w = none
      ↔ ∃ e : HashEntry, Lookup.findEntry hash table propertyName = some e
          ∧ hasFlag e.attr Function = true := by
  cases hf : Lookup.findEntry hash table propertyName with
  | none => simp [getStaticValueSlot, hf]
  | some e =>
    by_cases hb : hasFlag e.attr Function = true <;> simp [getStaticValueSlot, hf, hb]

/-- C11. For every table, instance and name: when the lookup finds no entry or
an entry with the Function flag, getStaticFunctionSlot passes its assertion
and returns the boolean, the slot and the world of getStaticPropertySlot with
the same parent; when the lookup finds no entry or an entry without the
Function flag, getStaticValueSlot does likewise; the assertion of
getStaticFunctionSlot fails exactly when the found entry lacks the Function
flag and that of getStaticValueSlot exactly when the found entry has it, so
neither fails on a table whose keyed entries are all functions, respectively
all values. -/
theorem simplified_slots_agree (hash : Identifier → Nat) (F : FuncImp) (T : ThisImp σ)
    (P : ParentImp σ) (table : HashTable) (thisObj : JSObject) (propertyName : Identifier)
    (slot : PropertySlot σ) (w : World σ) :
    ((Lookup.findEntry hash table propertyName = none
        ∨ ∃ e : HashEntry, Lookup.findEntry hash table propertyName = some e
            ∧ hasFlag e.attr Function = true) →
      getStaticFunctionSlot hash F P table thisObj propertyName slot w
        = some (getStaticPropertySlot hash F T P table thisObj propertyName slot w))
    ∧ ((Lookup.findEntry hash table propertyName = none
        ∨ ∃ e : HashEntry, Lookup.findEntry hash table propertyName = some e
            ∧ hasFlag e.attr Function = false) →
      getStaticValueSlot hash T P table thisObj propertyName slot w
        = some (getStaticPropertySlot hash F T P table thisObj propertyName slot w))
    ∧ (getStaticFunctionSlot hash F P table thisObj propertyName slot w = none
        ↔ ∃ e : HashEntry, Lookup.findEntry hash table propertyName = some e
            ∧ hasFlag e.attr Function = false)
    ∧ (getStaticValueSlot hash T P table thisObj propertyName slot w = none
        ↔ ∃ e : HashEntry, Lookup.findEntry hash table propertyName = some e
            ∧ hasFlag e.attr Function = true)
    ∧ ((∀ e ∈ table.entries, e.s ≠ none → hasFlag e.attr Function = true) →
        getStaticFunctionSlot hash F P table thisObj propertyName slot w ≠ none)
    ∧ ((∀ e ∈ table.entries, e.s ≠ none → hasFlag e.attr Function = false) →
        getStaticValueSlot hash T P table thisObj propertyName slot w ≠ none) := by
  have keyed : ∀ e : HashEntry, Lookup.findEntry hash table propertyName = some e →
      e ∈ table.entries ∧ e.s ≠ none := by
    intro e he
    refine ⟨findEntry_mem hash table propertyName e he, ?_⟩
    rw [findEntry_key hash table propertyName e he]
    exact Option.some_ne_none _
  refine ⟨?_, ?_, getStaticFunctionSlot_eq_none hash F P table thisObj propertyName slot w,
    getStaticValueSlot_eq_none hash T P table thisObj propertyName slot w, ?_, ?_⟩
  · rintro (hn | ⟨e, he, hb⟩)
    · simp [getStaticFunctionSlot, getStaticPropertySlot, hn]
    · simp [getStaticFunctionSlot, getStaticPropertySlot, he, hb]
  · rintro (hn | ⟨e, he, hb⟩)
    · simp [getStaticValueSlot, getStaticPropertySlot, hn]
    · simp [getStaticValueSlot, getStaticPropertySlot, he, hb]
  · intro hall hnone
    obtain ⟨e, he, hb⟩ :=
      (getStaticFunctionSlot_eq_none hash F P table thisObj propertyName slot w).mp hnone
    have ht := hall e (keyed e he).1 (keyed e he).2
    rw [ht] at hb
    exact Bool.noConfusion hb
  · intro hall hnone
    obtain ⟨e, he, hb⟩ :=
      (getStaticValueSlot_eq_none hash T P table thisObj propertyName slot w).mp hnone
    have ht := hall e (keyed e he).1 (keyed e he).2
    rw [ht] at hb
    exact Bool.noConfusion hb

end Simplified

/-! ## The theorems on the sample class -/

section Sample

theorem lookupPut_function_override_witness :
    Lookup.findEntry sampleHash sampleTable "stop" = some ⟨some "stop", 4, 34, 0, none⟩
    ∧ hasFlag 34 Function = true
    ∧ hasFlag 34 ReadOnly = true
    ∧ staticFunctionGetter KJS_IMPLEMENT_PROTOFUNC 1 "stop"
          (.staticEntrySlot 1 ⟨some "stop", 4, 34, 0, none⟩
            (.staticFunctionGetter KJS_IMPLEMENT_PROTOFUNC))
          (lookupPut sampleHash sampleOwner (JSObjectImp _) "stop" (JSValue.other 9) 0
            sampleTable 1 sampleWorld)
        = some (JSValue.other 9,
            lookupPut sampleHash sampleOwner (JSObjectImp _) "stop" (JSValue.other 9) 0
              sampleTable 1 sampleWorld) :=
  ⟨rfl, by decide, by decide,
    (lookupPut_function_override sampleHash KJS_IMPLEMENT_PROTOFUNC sampleOwner (JSObjectImp _)
      sampleTable 1 1 "stop" (JSValue.other 9) 0 ⟨some "stop", 4, 34, 0, none⟩ sampleWorld
      rfl (by decide)).2.2.2.2.1⟩

theorem lookupPut_readOnly_noop_witness :
    Lookup.findEntry sampleHash sampleTable "foo" = some ⟨some "foo", 1, 2, 0, some 2⟩
    ∧ hasFlag 2 ReadOnly = true
    ∧ hasFlag 2 Function = false
    ∧ lookupPut sampleHash sampleOwner (JSObjectImp _) "foo" (JSValue.other 9) 0
        sampleTable 1 sampleWorld = sampleWorld :=
  ⟨rfl, by decide, by decide,
    (lookupPut_readOnly_noop sampleHash sampleOwner (JSObjectImp _) sampleTable 1 1 "foo"
      (JSValue.other 9) 0 ⟨some "foo", 1, 2, 0, some 2⟩ sampleWorld rfl (by decide)
      (by decide)).1⟩

theorem cacheGlobalObject_twice_witness :
    (∀ v : JSValue,
      JSObject.getDirect sampleWorld.heap sampleWorld.heap.globalObject "[[Node.prototype]]"
        = some v → v.isObject = true)
    ∧ ∃ (o : JSObject) (w1 : World (List (Int × JSValue))),
        cacheGlobalObject ⟨[]⟩ "[[Node.prototype]]" sampleWorld = some (o, w1)
        ∧ cacheGlobalObject ⟨[]⟩ "[[Node.prototype]]" w1 = some (o, w1) :=
  have hobj : ∀ v : JSValue,
      JSObject.getDirect sampleWorld.heap sampleWorld.heap.globalObject "[[Node.prototype]]"
        = some v → v.isObject = true :=
    fun _ h => Option.noConfusion ((show JSObject.getDirect sampleWorld.heap
      sampleWorld.heap.globalObject "[[Node.prototype]]" = none from by decide) ▸ h)
  ⟨hobj,
    (cacheGlobalObject_twice ⟨[]⟩ "[[Node.prototype]]" sampleWorld hobj).imp
      (fun _ h => h.imp (fun _ h2 => ⟨h2.1, h2.2.1⟩))⟩

theorem getStaticPropertySlot_notFound_delegates_witness :
    Lookup.findEntry sampleHash sampleTable "item" = none
    ∧ Lookup.findEntry sampleHash sampleSuperTable "item" = some ⟨some "item", 7, 32, 1, none⟩
    ∧ getStaticPropertySlot sampleHash KJS_IMPLEMENT_PROTOFUNC sampleOwner
          (classChain sampleHash (JSObjectImp _)
            [⟨KJS_IMPLEMENT_PROTOFUNC, sampleOwner, sampleSuperTable⟩])
          sampleTable 1 "item" .unset sampleWorld
        = (true,
           .staticEntrySlot 1 ⟨some "item", 7, 32, 1, none⟩
             (.staticFunctionGetter KJS_IMPLEMENT_PROTOFUNC),
           { heap := sampleWorld.heap
             calls := [Call.parentGetOwnPropertySlot 1 "item"] }) :=
  ⟨rfl, rfl,
    (getStaticPropertySlot_notFound_delegates sampleHash KJS_IMPLEMENT_PROTOFUNC sampleOwner
      (JSObjectImp _) sampleTable 1 "item" .unset sampleWorld rfl).2.1 (JSObjectImp _) []
      ⟨KJS_IMPLEMENT_PROTOFUNC, sampleOwner, sampleSuperTable⟩ [] _
      (fun _ h => absurd h (List.not_mem_nil _)) rfl⟩

theorem staticValueGetter_computes_witness :
    Lookup.findEntry sampleHash sampleTable "baz" = some ⟨some "baz", 3, 0, 0, none⟩
    ∧ hasFlag 0 Function = false
    ∧ PropertySlot.getValue
          (.staticEntrySlot 1 ⟨some "baz", 3, 0, 0, none⟩ (.staticValueGetter sampleOwner))
          1 "baz" sampleWorld
        = some (JSValue.number 30,
            { heap := sampleWorld.heap, calls := [Call.getValueProperty 1 3] }) :=
  ⟨rfl, by decide,
    (staticValueGetter_computes sampleHash KJS_IMPLEMENT_PROTOFUNC sampleOwner (JSObjectImp _)
      sampleTable 1 1 "baz" .unset ⟨some "baz", 3, 0, 0, none⟩ sampleWorld rfl
      (by decide)).2.1 sampleWorld⟩

theorem lookupPut_value_forwards_witness :
    Lookup.findEntry sampleHash sampleTable "baz" = some ⟨some "baz", 3, 0, 0, none⟩
    ∧ hasFlag 0 Function = false
    ∧ hasFlag 0 ReadOnly = false
    ∧ lookupPut sampleHash sampleOwner (JSObjectImp _) "baz" (JSValue.other 9) 0
          sampleTable 1 sampleWorld
        = { heap := { sampleWorld.heap with
                        owner := [(1, JSValue.number 10), (3, JSValue.other 9)] }
            calls := [Call.putValueProperty 1 3 (JSValue.other 9) 0] } :=
  ⟨rfl, by decide, by decide,
    (lookupPut_value_forwards sampleHash sampleOwner (JSObjectImp _) sampleTable 1 "baz"
      (JSValue.other 9) 0 ⟨some "baz", 3, 0, 0, none⟩ sampleWorld rfl (by decide)
      (by decide)).1⟩

theorem lookupPut_notFound_delegates_witness :
    Lookup.findEntry sampleHash sampleTable "item" = none
    ∧ JSObject.getDirect
          (lookupPut sampleHash sampleOwner (JSObjectImp _) "item" (JSValue.other 9) 4
            sampleTable 1 sampleWorld).heap 1 "item" = some (JSValue.other 9)
    ∧ JSObject.getAttributes
          (lookupPut sampleHash sampleOwner (JSObjectImp _) "item" (JSValue.other 9) 4
            sampleTable 1 sampleWorld).heap 1 "item" = some 4 :=
  ⟨rfl,
    (lookupPut_notFound_delegates sampleHash sampleOwner (JSObjectImp _) sampleTable 1 "item"
      (JSValue.other 9) 4 sampleWorld rfl).2.1,
    (lookupPut_notFound_delegates sampleHash sampleOwner (JSObjectImp _) sampleTable 1 "item"
      (JSValue.other 9) 4 sampleWorld rfl).2.2.1⟩

theorem getStaticPropertySlot_found_witness :
    Lookup.findEntry sampleHash sampleTable "bar" = some ⟨some "bar", 2, 32, 1, some 3⟩
    ∧ ∃ g : GetValueFunc (List (Int × JSValue)),
        getStaticPropertySlot sampleHash KJS_IMPLEMENT_PROTOFUNC sampleOwner (JSObjectImp _)
            sampleTable 1 "bar" .unset sampleWorld
          = (true, .staticEntrySlot 1 ⟨some "bar", 2, 32, 1, some 3⟩ g, sampleWorld) :=
  ⟨rfl,
    (getStaticPropertySlot_found sampleHash KJS_IMPLEMENT_PROTOFUNC sampleOwner (JSObjectImp _)
      sampleTable 1 "bar" .unset ⟨some "bar", 2, 32, 1, some 3⟩ sampleWorld rfl).imp
      (fun _ h => h.1)⟩

theorem staticFunctionGetter_materializes_witness :
    1 < sampleWorld.heap.fresh
    ∧ JSObject.getDirect sampleWorld.heap 1 "bar" = none
    ∧ ∃ w1 : World (List (Int × JSValue)),
        staticFunctionGetter KJS_IMPLEMENT_PROTOFUNC 1 "bar"
            (.staticEntrySlot 1 ⟨some "bar", 2, 32, 1, some 3⟩
              (.staticFunctionGetter KJS_IMPLEMENT_PROTOFUNC)) sampleWorld
          = some (JSValue.object 2, w1)
        ∧ w1.calls = [Call.newFuncImp 2 1]
        ∧ JSObject.getAttributes w1.heap 1 "bar" = some 32 :=
  ⟨by decide, by decide,
    (staticFunctionGetter_materializes KJS_IMPLEMENT_PROTOFUNC 1 1 "bar"
      ⟨some "bar", 2, 32, 1, some 3⟩ (.staticFunctionGetter KJS_IMPLEMENT_PROTOFUNC)
      sampleWorld (by decide) (by decide)).imp
      (fun _ h => ⟨h.1, h.2.1, h.2.2.2.2.1⟩)⟩

theorem simplified_slots_agree_witness :
    Lookup.findEntry sampleHash sampleSuperTable "item" = some ⟨some "item", 7, 32, 1, none⟩
    ∧ hasFlag 32 Function = true
    ∧ getStaticFunctionSlot sampleHash KJS_IMPLEMENT_PROTOFUNC (JSObjectImp _)
          sampleSuperTable 1 "item" .unset sampleWorld
        = some (getStaticPropertySlot sampleHash KJS_IMPLEMENT_PROTOFUNC sampleOwner
            (JSObjectImp _) sampleSuperTable 1 "item" .unset sampleWorld)
    ∧ (∀ e ∈ sampleValueTable.entries, e.s ≠ none → hasFlag e.attr Function = false)
    ∧ getStaticValueSlot sampleHash sampleOwner (JSObjectImp _) sampleValueTable 1 "top"
          .unset sampleWorld ≠ none
    ∧ Lookup.findEntry sampleHash sampleTable "baz" = some ⟨some "baz", 3, 0, 0, none⟩
    ∧ hasFlag 0 Function = false
    ∧ getStaticFunctionSlot sampleHash KJS_IMPLEMENT_PROTOFUNC (JSObjectImp _) sampleTable 1
          "baz" .unset sampleWorld = none :=
  have hall : ∀ e ∈ sampleValueTable.entries, e.s ≠ none → hasFlag e.attr Function = false :=
    by decide
  ⟨rfl, by decide,
    (simplified_slots_agree sampleHash KJS_IMPLEMENT_PROTOFUNC sampleOwner (JSObjectImp _)
      sampleSuperTable 1 "item" .unset sampleWorld).1
      (Or.inr ⟨_, rfl, by decide⟩),
    hall,
    (simplified_slots_agree sampleHash KJS_IMPLEMENT_PROTOFUNC sampleOwner (JSObjectImp _)
      sampleValueTable 1 "top" .unset sampleWorld).2.2.2.2.2 hall,
    rfl, by decide,
    (simplified_slots_agree sampleHash KJS_IMPLEMENT_PROTOFUNC sampleOwner (JSObjectImp _)
      sampleTable 1 "baz" .unset sampleWorld).2.2.1.mpr ⟨_, rfl, by decide⟩⟩

end Sample

end KJS
